import Mathlib

/-!
Verification of the Unshredder reconstruction algorithm (src/unshredder.py).

The Python program is shallowly embedded: pixels are lists of integer
channel values, a strip is a structure holding its flat pixel data, its
two sampled border columns and its mutable best-neighbor state, and the
imperative passes (`FindNeighbors`, `DetectLeftEdge`, `OrderStrips`)
become pure functions on lists of strips.  Python attribute errors
(dereferencing an absent neighbor) are modelled with `Except`.
-/

namespace Unshredder

/-- `MAX = 10 ** 9`, the sentinel "infinite" distance. -/
def MAX : Int := 10 ^ 9

/-- `STRIP_WIDTH = 32`. -/
def STRIP_WIDTH : Nat := 32

/-- `IMAGE_WIDTH = 640`. -/
def IMAGE_WIDTH : Nat := 640

/-- `IMAGE_HEIGHT = 359`. -/
def IMAGE_HEIGHT : Nat := 359

/-- `SAMPLING_DISTANCE = 2`. -/
def SAMPLING_DISTANCE : Nat := 2

/-- A pixel value: the ordered tuple of channel intensities, as PIL
returns it (`(r, g, b, a)` for an RGBA image). -/
abbrev Pixel := List Int

/-- Embedding of `GetDistance(pixels_a, pixels_b)`: iterate `i` over
`range(len(pixels_a))`, and for each pair of pixels iterate `j` over
`range(len(a_rgb) - 3)`, accumulating `abs(a_rgb[j] - b_rgb[j])`. -/
def GetDistance (pixels_a pixels_b : List Pixel) : Int :=
  (List.range pixels_a.length).foldl
    (fun distance i =>
      let a_rgb := pixels_a.getD i []
      let b_rgb := pixels_b.getD i []
      (List.range (a_rgb.length - 3)).foldl
        (fun d j => d + |a_rgb.getD j 0 - b_rgb.getD j 0|) distance)
    0

/-- The contribution of one pixel pair to `GetDistance`: the sum of the
absolute channel differences over channels `j < len(a_rgb) - 3`. -/
def pixelDist (a_rgb b_rgb : Pixel) : Int :=
  ((List.range (a_rgb.length - 3)).map
    (fun j => |a_rgb.getD j 0 - b_rgb.getD j 0|)).sum

/-- Embedding of `Strip._GetPixelValue(x, y)`: the strip's flat pixel
data (PIL `getdata()`, row-major with row stride `STRIP_WIDTH`) indexed
at `y * STRIP_WIDTH + x`. -/
def GetPixelValue (imageData : List Pixel) (x y : Nat) : Pixel :=
  imageData.getD (y * STRIP_WIDTH + x) []

/-- Embedding of the `while` loop of `Strip._LoadBorder`: starting from
`sample_count`, append the pixel of column `x` at row
`sample_count * SAMPLING_DISTANCE` while that row is `< IMAGE_HEIGHT`. -/
def LoadBorderGo (imageData : List Pixel) (x : Nat) (sample_count : Nat) :
    List Pixel :=
  if h : sample_count * SAMPLING_DISTANCE < IMAGE_HEIGHT then
    GetPixelValue imageData x (sample_count * SAMPLING_DISTANCE) ::
      LoadBorderGo imageData x (sample_count + 1)
  else []
termination_by IMAGE_HEIGHT - sample_count * SAMPLING_DISTANCE
decreasing_by
  simp only [SAMPLING_DISTANCE, IMAGE_HEIGHT] at *
  omega

/-- `Strip._LoadBorder(border)`: sample the edge column `x` from row 0. -/
def LoadBorder (imageData : List Pixel) (x : Nat) : List Pixel :=
  LoadBorderGo imageData x 0

/-- A `Strip` object.  `position` is `_position`, `imageData` is the
crop's `getdata()`, `borderL`/`borderR` are `_border_pixels['l'/'r']`,
`neighborL`/`neighborR` are `_neighbors['l'/'r']` (a non-owning handle:
the index of the neighbor strip in the strip list, `none` for Python
`None`), `minDistL`/`minDistR` are `_min_distances['l'/'r']`. -/
structure Strip where
  position : Nat
  imageData : List Pixel
  borderL : List Pixel
  borderR : List Pixel
  neighborL : Option Nat
  neighborR : Option Nat
  minDistL : Int
  minDistR : Int
deriving DecidableEq, Inhabited

/-- `Strip.__init__`: store the pixel data and position, initialize the
neighbors to `None` and the minimum distances to `MAX`, and load both
border columns (`BORDERS = {'l': 0, 'r': STRIP_WIDTH - 1}`). -/
def mkStrip (imageData : List Pixel) (position : Nat) : Strip :=
  { position := position
    imageData := imageData
    borderL := LoadBorder imageData 0
    borderR := LoadBorder imageData (STRIP_WIDTH - 1)
    neighborL := none
    neighborR := none
    minDistL := MAX
    minDistR := MAX }

/-- `Strip.NeighborDistanceRight`, i.e. `_NeighborDistance(neighbor,
'r', 'l')`, acting on strip `i` of the list with candidate `j`:
compute `GetDistance(neighbor_left_border, own_right_border)` and
update `minDistR`/`neighborR` when strictly smaller. -/
def NeighborDistanceRight (strips : List Strip) (i j : Nat) : List Strip :=
  let strip := strips.getD i default
  let neighbor := strips.getD j default
  let distance := GetDistance neighbor.borderL strip.borderR
  if distance < strip.minDistR then
    strips.set i { strip with minDistR := distance, neighborR := some j }
  else strips

/-- `Strip.NeighborDistanceLeft`, i.e. `_NeighborDistance(neighbor,
'l', 'r')`: compute `GetDistance(neighbor_right_border,
own_left_border)` and update `minDistL`/`neighborL` when strictly
smaller. -/
def NeighborDistanceLeft (strips : List Strip) (i j : Nat) : List Strip :=
  let strip := strips.getD i default
  let neighbor := strips.getD j default
  let distance := GetDistance neighbor.borderR strip.borderL
  if distance < strip.minDistL then
    strips.set i { strip with minDistL := distance, neighborL := some j }
  else strips

/-- One iteration of the inner loop of `FindNeighbors`: skip when the
inner strip is the outer strip itself (Python object identity, i.e.
the same list index), otherwise score the candidate on the right and
then on the left. -/
def FindNeighborsStep (strips : List Strip) (i j : Nat) : List Strip :=
  if i = j then strips
  else NeighborDistanceLeft (NeighborDistanceRight strips i j) i j

/-- Embedding of `FindNeighbors(strips)`: for every strip (outer loop)
and every inner strip, score both candidate adjacencies, mutating the
outer strip's best-neighbor state in place. -/
def FindNeighbors (strips : List Strip) : List Strip :=
  (List.range strips.length).foldl
    (fun acc i =>
      (List.range strips.length).foldl
        (fun acc2 j => FindNeighborsStep acc2 i j) acc)
    strips

/-- The candidate score of `j` as `i`'s right neighbor. -/
def distR (strips : List Strip) (i j : Nat) : Int :=
  GetDistance (strips.getD j default).borderL (strips.getD i default).borderR

/-- The candidate score of `j` as `i`'s left neighbor. -/
def distL (strips : List Strip) (i j : Nat) : Int :=
  GetDistance (strips.getD j default).borderR (strips.getD i default).borderL

/-! ### Frame lemmas for the matching pass -/

/-- The abstract "keep the strictly smaller distance" update on one
side's `(min_distance, neighbor)` state, skipping the strip itself. -/
def updateMin (d : Nat → Int) (i : Nat) (st : Int × Option Nat) (j : Nat) :
    Int × Option Nat :=
  if i = j then st
  else if d j < st.1 then (d j, some j) else st

/-- The combined effect of one inner-loop iteration on the outer
strip's record: the right-side comparison followed by the left-side
comparison. -/
def stripStep (dR dL : Int) (j : Nat) (s : Strip) : Strip :=
  if dL < s.minDistL then
    if dR < s.minDistR then
      { s with minDistR := dR, neighborR := some j,
               minDistL := dL, neighborL := some j }
    else { s with minDistL := dL, neighborL := some j }
  else
    if dR < s.minDistR then
      { s with minDistR := dR, neighborR := some j }
    else s

/-- The static (immutable) part of two strip lists agrees pointwise:
same length, and the same position, pixel data and borders at every
index. -/
def sameFrame (t s : List Strip) : Prop :=
  t.length = s.length ∧
  ∀ k, (t.getD k default).position = (s.getD k default).position ∧
       (t.getD k default).imageData = (s.getD k default).imageData ∧
       (t.getD k default).borderL = (s.getD k default).borderL ∧
       (t.getD k default).borderR = (s.getD k default).borderR

/-- The right-side scan of strip `i` over all candidate indices, as
performed by the matching pass starting from strip `i`'s initial
state. -/
def scanSideR (strips : List Strip) (i : Nat) : Int × Option Nat :=
  (List.range strips.length).foldl (updateMin (distR strips i) i)
    ((strips.getD i default).minDistR, (strips.getD i default).neighborR)

/-- The left-side scan of strip `i` over all candidate indices. -/
def scanSideL (strips : List Strip) (i : Nat) : Int × Option Nat :=
  (List.range strips.length).foldl (updateMin (distL strips i) i)
    ((strips.getD i default).minDistL, (strips.getD i default).neighborL)

/-- A concrete fresh strip with constant dark borders. -/
def stripA : Strip :=
  ⟨0, [], [[0, 0, 0, 0]], [[0, 0, 0, 0]], none, none, MAX, MAX⟩

/-- A concrete fresh strip with brighter borders. -/
def stripB : Strip :=
  ⟨1, [], [[5, 0, 0, 0]], [[7, 0, 0, 0]], none, none, MAX, MAX⟩

/-- No strip's stored best neighbor (on either side) is the strip
itself. -/
def NoSelfNeighbor (strips : List Strip) : Prop :=
  ∀ k, k < strips.length →
    (strips.getD k default).neighborL ≠ some k ∧
    (strips.getD k default).neighborR ≠ some k

/-- A well-formed border sample: `L` samples of 4-channel pixels whose
channel values lie in `[0, 255]`. -/
def BorderOK (L : Nat) (bp : List Pixel) : Prop :=
  bp.length = L ∧ ∀ p ∈ bp, p.length = 4 ∧ ∀ c ∈ p, 0 ≤ c ∧ c ≤ 255

/-- Embedding of the loop of `DetectLeftEdge(strips)`.  The first
argument is the full strip list (for looking up neighbors); the loop
walks the suffix starting at index `i`.  For each strip the debug log
dereferences `GetRightNeighbor().GetPosition()` and
`GetLeftNeighbor().GetPosition()`, so an absent neighbor raises an
`AttributeError`, modelled as `Except.error ()`.  Otherwise, when the
left neighbor's right neighbor is not the strip itself, the strip is
returned; falling off the loop returns Python `None`. -/
def DetectLeftEdgeGo (strips : List Strip) :
    List Strip → Nat → Except Unit (Option Nat)
  | [], _ => .ok none
  | strip :: rest, i =>
      match strip.neighborR, strip.neighborL with
      | some _, some l =>
          if (strips.getD l default).neighborR = some i then
            DetectLeftEdgeGo strips rest (i + 1)
          else .ok (some i)
      | _, _ => .error ()

/-- `DetectLeftEdge(strips)`: scan the strips in extraction order. -/
def DetectLeftEdge (strips : List Strip) : Except Unit (Option Nat) :=
  DetectLeftEdgeGo strips strips 0

/-- Strip `i` breaks reciprocity: its left best-neighbor's right
best-neighbor is not `i` itself. -/
def Offender (strips : List Strip) (i : Nat) : Prop :=
  (strips.getD ((strips.getD i default).neighborL.getD 0)
    default).neighborR ≠ some i

/-- The output raster, as a map from `(x, y)` to the pixel there. -/
def Raster := Nat → Nat → Pixel

/-- PIL `image.paste(strip_image, (x0, 0))`: copy the strip's
`STRIP_WIDTH × IMAGE_HEIGHT` pixel block to horizontal offset `x0`. -/
def pasteStrip (image : Raster) (data : List Pixel) (x0 : Nat) : Raster :=
  fun x y =>
    if x0 ≤ x ∧ x < x0 + STRIP_WIDTH ∧ y < IMAGE_HEIGHT then
      GetPixelValue data (x - x0) y
    else image x y

/-- Embedding of `OrderStrips(image, strip, count)`: paste the current
strip at `x = count * STRIP_WIDTH` and recurse on its right
best-neighbor, stopping as soon as `x >= IMAGE_WIDTH`.  The strip
argument is a handle into the strip list; Python's `None` strip is
dereferenced by the recursive call's logging/paste, modelled as
`Except.error ()`. -/
def OrderStrips (strips : List Strip) (image : Raster)
    (stripIdx : Option Nat) (count : Nat) : Except Unit Raster :=
  if h : count * STRIP_WIDTH ≥ IMAGE_WIDTH then .ok image
  else
    match stripIdx with
    | none => .error ()
    | some i =>
        OrderStrips strips
          (pasteStrip image (strips.getD i default).imageData
            (count * STRIP_WIDTH))
          (strips.getD i default).neighborR (count + 1)
termination_by IMAGE_WIDTH - count * STRIP_WIDTH
decreasing_by
  simp only [IMAGE_WIDTH, STRIP_WIDTH] at *
  omega

/-- The strip handle reached after `k` right best-neighbor hops. -/
def follow (strips : List Strip) : Option Nat → Nat → Option Nat
  | io, 0 => io
  | none, _ + 1 => none
  | some i, k + 1 => follow strips (strips.getD i default).neighborR k

/-- A cyclic chain of 20 bare strips, for exercising the assembler. -/
def stripCycle : List Strip :=
  (List.range 20).map
    (fun i => ⟨i, [], [], [], none, some ((i + 1) % 20), MAX, MAX⟩)

/-- The whole reconstruction, after strip extraction, as `main` runs
it: match all strips, detect the left edge (Python `None` when no
strip breaks reciprocity), then assemble the chain onto the blank
output raster.  An `AttributeError` anywhere is `Except.error ()`. -/
def RunPipeline (strips : List Strip) (blank : Raster) :
    Except Unit Raster :=
  match DetectLeftEdge (FindNeighbors strips) with
  | .error e => .error e
  | .ok edge => OrderStrips (FindNeighbors strips) blank edge 0

/-- A concrete single strip, fresh from extraction. -/
def stripSolo : Strip :=
  ⟨0, [], [[3, 3, 3, 3]], [[3, 3, 3, 3]], none, none, MAX, MAX⟩

/-- Folding `+ f x` over a list starting from `c` adds the mapped sum. -/
theorem foldl_add_shift (f : α → Int) :
    ∀ (l : List α) (c : Int),
      l.foldl (fun d x => d + f x) c = c + (l.map f).sum := by
  intro l
  induction l with
  | nil => intro c; simp
  | cons x xs ih =>
      intro c
      simp only [List.foldl_cons, List.map_cons, List.sum_cons, ih, add_assoc]

/-- `GetDistance` is the sum of the per-pixel-pair contributions. -/
theorem getDistance_eq_sum (a b : List Pixel) :
    GetDistance a b =
      ((List.range a.length).map
        (fun i => pixelDist (a.getD i []) (b.getD i []))).sum := by
  unfold GetDistance
  have h : ∀ (l : List Nat) (c : Int),
      l.foldl
        (fun distance i =>
          let a_rgb := a.getD i []
          let b_rgb := b.getD i []
          (List.range (a_rgb.length - 3)).foldl
            (fun d j => d + |a_rgb.getD j 0 - b_rgb.getD j 0|) distance)
        c
      = c + (l.map (fun i => pixelDist (a.getD i []) (b.getD i []))).sum := by
    intro l
    induction l with
    | nil => intro c; simp
    | cons x xs ih =>
        intro c
        simp only [List.foldl_cons, List.map_cons, List.sum_cons]
        rw [ih]
        rw [foldl_add_shift (fun j =>
          |(a.getD x []).getD j 0 - (b.getD x []).getD j 0|)]
        unfold pixelDist
        ring
  rw [h]
  ring

/-- Each per-pixel contribution is non-negative. -/
theorem pixelDist_nonneg (p q : Pixel) : 0 ≤ pixelDist p q := by
  unfold pixelDist
  apply List.sum_nonneg
  intro x hx
  simp only [List.mem_map] at hx
  obtain ⟨j, _, rfl⟩ := hx
  exact abs_nonneg _

/-- `GetDistance` is always non-negative. -/
theorem getDistance_nonneg (a b : List Pixel) : 0 ≤ GetDistance a b := by
  rw [getDistance_eq_sum]
  apply List.sum_nonneg
  intro x hx
  simp only [List.mem_map] at hx
  obtain ⟨i, _, rfl⟩ := hx
  exact pixelDist_nonneg _ _

/-- For a 4-channel pixel, the contribution is the absolute difference
of channel 0 (red) alone. -/
theorem pixelDist_four (p q : Pixel) (hp : p.length = 4) :
    pixelDist p q = |p.getD 0 0 - q.getD 0 0| := by
  unfold pixelDist
  rw [hp]
  have h1 : List.range (4 - 3) = [0] := rfl
  rw [h1]
  simp

/-- For a 3-channel pixel, the contribution is zero: the channel loop
`range(len(a_rgb) - 3)` is empty. -/
theorem pixelDist_three (p q : Pixel) (hp : p.length = 3) :
    pixelDist p q = 0 := by
  unfold pixelDist
  rw [hp]
  rfl

/-- Claim C1: for two equal-length sequences of (4-channel RGBA) pixel
values, `GetDistance` returns a non-negative scalar equal to the sum,
over all paired sample indices, of the absolute difference of exactly
the first channel (red); the remaining channels are ignored. -/
theorem claim_C1 (a b : List Pixel) (hlen : a.length = b.length)
    (ha : ∀ p ∈ a, p.length = 4) (hb : ∀ p ∈ b, p.length = 4) :
    GetDistance a b =
      ((List.range a.length).map
        (fun i => |(a.getD i []).getD 0 0 - (b.getD i []).getD 0 0|)).sum
    ∧ 0 ≤ GetDistance a b := by
  refine ⟨?_, getDistance_nonneg a b⟩
  rw [getDistance_eq_sum]
  apply congrArg List.sum
  apply List.map_congr_left
  intro i hi
  rw [List.mem_range] at hi
  have hmem : a.getD i [] ∈ a := by
    rw [List.getD_eq_getElem a [] hi]
    exact List.getElem_mem hi
  exact pixelDist_four _ _ (ha _ hmem)

/-- Witness for C1 at a concrete input. -/
theorem claim_C1_witness :
    (∀ p ∈ ([[10, 20, 30, 40], [7, 0, 0, 0]] : List Pixel), p.length = 4) ∧
    (GetDistance [[10, 20, 30, 40], [7, 0, 0, 0]] [[4, 20, 30, 40], [9, 0, 0, 0]] =
      ((List.range ([[10, 20, 30, 40], [7, 0, 0, 0]] : List Pixel).length).map
        (fun i =>
          |(([[10, 20, 30, 40], [7, 0, 0, 0]] : List Pixel).getD i []).getD 0 0 -
            (([[4, 20, 30, 40], [9, 0, 0, 0]] : List Pixel).getD i []).getD 0 0|)).sum
      ∧ 0 ≤ GetDistance [[10, 20, 30, 40], [7, 0, 0, 0]] [[4, 20, 30, 40], [9, 0, 0, 0]]) :=
  ⟨by decide, claim_C1 _ _ (by decide) (by decide) (by decide)⟩

/-- The per-pixel contribution is symmetric when the two pixels have
the same number of channels. -/
theorem pixelDist_comm (p q : Pixel) (h : p.length = q.length) :
    pixelDist p q = pixelDist q p := by
  unfold pixelDist
  rw [h]
  apply congrArg List.sum
  apply List.map_congr_left
  intro j _
  rw [abs_sub_comm]

/-- Claim C8: `GetDistance` is symmetric on two equal-length border
sequences built from the same channel-selection rule (pairwise equal
channel counts). -/
theorem claim_C8 (a b : List Pixel) (hlen : a.length = b.length)
    (hpix : ∀ i, (a.getD i []).length = (b.getD i []).length) :
    GetDistance a b = GetDistance b a := by
  rw [getDistance_eq_sum, getDistance_eq_sum, ← hlen]
  apply congrArg List.sum
  apply List.map_congr_left
  intro i _
  exact pixelDist_comm _ _ (hpix i)

/-- Witness for C8 at a concrete input. -/
theorem claim_C8_witness :
    (([[10, 20, 30, 40]] : List Pixel).length = ([[4, 5, 6, 7]] : List Pixel).length) ∧
    GetDistance [[10, 20, 30, 40]] [[4, 5, 6, 7]] =
      GetDistance [[4, 5, 6, 7]] [[10, 20, 30, 40]] :=
  ⟨rfl, claim_C8 _ _ (by decide) (by intro i; cases i <;> rfl)⟩

/-- Claim C9: on sequences of 3-channel pixels (e.g. RGB without
alpha), `GetDistance` returns 0 regardless of the pixel contents,
because only channels with index `< len(pixel) - 3` contribute. -/
theorem claim_C9 (a b : List Pixel) (hlen : a.length = b.length)
    (ha : ∀ p ∈ a, p.length = 3) (hb : ∀ p ∈ b, p.length = 3) :
    GetDistance a b = 0 := by
  rw [getDistance_eq_sum]
  apply List.sum_eq_zero
  intro x hx
  simp only [List.mem_map] at hx
  obtain ⟨i, hi, rfl⟩ := hx
  rw [List.mem_range] at hi
  have hmem : a.getD i [] ∈ a := by
    rw [List.getD_eq_getElem a [] hi]
    exact List.getElem_mem hi
  exact pixelDist_three _ _ (ha _ hmem)

/-- Witness for C9 at a concrete input. -/
theorem claim_C9_witness :
    (∀ p ∈ ([[100, 150, 200], [1, 2, 3]] : List Pixel), p.length = 3) ∧
    GetDistance [[100, 150, 200], [1, 2, 3]] [[9, 8, 7], [50, 60, 70]] = 0 :=
  ⟨by decide, claim_C9 _ _ (by decide) (by decide) (by decide)⟩

/-- `getD` after `set` at a different index. -/
theorem getD_set_ne (l : List Strip) (i k : Nat) (a : Strip) (h : i ≠ k) :
    (l.set i a).getD k default = l.getD k default := by
  simp [List.getD, List.getElem?_set_ne h]

/-- `getD` after `set` at the same (in-range) index. -/
theorem getD_set_self (l : List Strip) (i : Nat) (a : Strip)
    (h : i < l.length) :
    (l.set i a).getD i default = a := by
  simp [List.getD, List.getElem?_set_self, h]

theorem stripStep_position (dR dL : Int) (j : Nat) (s : Strip) :
    (stripStep dR dL j s).position = s.position := by
  simp only [stripStep]
  split <;> split <;> rfl

theorem stripStep_imageData (dR dL : Int) (j : Nat) (s : Strip) :
    (stripStep dR dL j s).imageData = s.imageData := by
  simp only [stripStep]
  split <;> split <;> rfl

theorem stripStep_borderL (dR dL : Int) (j : Nat) (s : Strip) :
    (stripStep dR dL j s).borderL = s.borderL := by
  simp only [stripStep]
  split <;> split <;> rfl

theorem stripStep_borderR (dR dL : Int) (j : Nat) (s : Strip) :
    (stripStep dR dL j s).borderR = s.borderR := by
  simp only [stripStep]
  split <;> split <;> rfl

theorem stripStep_minDistR (dR dL : Int) (j : Nat) (s : Strip) :
    (stripStep dR dL j s).minDistR =
      if dR < s.minDistR then dR else s.minDistR := by
  simp only [stripStep]
  split <;> split <;> simp_all

theorem stripStep_neighborR (dR dL : Int) (j : Nat) (s : Strip) :
    (stripStep dR dL j s).neighborR =
      if dR < s.minDistR then some j else s.neighborR := by
  simp only [stripStep]
  split <;> split <;> simp_all

theorem stripStep_minDistL (dR dL : Int) (j : Nat) (s : Strip) :
    (stripStep dR dL j s).minDistL =
      if dL < s.minDistL then dL else s.minDistL := by
  simp only [stripStep]
  split <;> split <;> simp_all

theorem stripStep_neighborL (dR dL : Int) (j : Nat) (s : Strip) :
    (stripStep dR dL j s).neighborL =
      if dL < s.minDistL then some j else s.neighborL := by
  simp only [stripStep]
  split <;> split <;> simp_all

theorem updateMin_fst (d : Nat → Int) (i j : Nat) (st : Int × Option Nat)
    (h : i ≠ j) :
    (updateMin d i st j).1 = if d j < st.1 then d j else st.1 := by
  simp only [updateMin, if_neg h]
  split <;> rfl

theorem updateMin_snd (d : Nat → Int) (i j : Nat) (st : Int × Option Nat)
    (h : i ≠ j) :
    (updateMin d i st j).2 = if d j < st.1 then some j else st.2 := by
  simp only [updateMin, if_neg h]
  split <;> rfl

theorem ndr_length (strips : List Strip) (i j : Nat) :
    (NeighborDistanceRight strips i j).length = strips.length := by
  simp only [NeighborDistanceRight]
  split <;> simp

theorem ndl_length (strips : List Strip) (i j : Nat) :
    (NeighborDistanceLeft strips i j).length = strips.length := by
  simp only [NeighborDistanceLeft]
  split <;> simp

theorem step_length (strips : List Strip) (i j : Nat) :
    (FindNeighborsStep strips i j).length = strips.length := by
  simp only [FindNeighborsStep]
  split
  · rfl
  · rw [ndl_length, ndr_length]

theorem ndr_getD_ne (strips : List Strip) (i j k : Nat) (h : k ≠ i) :
    (NeighborDistanceRight strips i j).getD k default =
      strips.getD k default := by
  simp only [NeighborDistanceRight]
  split
  · exact getD_set_ne _ _ _ _ (Ne.symm h)
  · rfl

theorem ndl_getD_ne (strips : List Strip) (i j k : Nat) (h : k ≠ i) :
    (NeighborDistanceLeft strips i j).getD k default =
      strips.getD k default := by
  simp only [NeighborDistanceLeft]
  split
  · exact getD_set_ne _ _ _ _ (Ne.symm h)
  · rfl

theorem step_getD_ne (strips : List Strip) (i j k : Nat) (h : k ≠ i) :
    (FindNeighborsStep strips i j).getD k default =
      strips.getD k default := by
  simp only [FindNeighborsStep]
  split
  · rfl
  · rw [ndl_getD_ne _ _ _ _ h, ndr_getD_ne _ _ _ _ h]

theorem ndr_getD_self (strips : List Strip) (i j : Nat)
    (hi : i < strips.length) :
    (NeighborDistanceRight strips i j).getD i default =
      if distR strips i j < (strips.getD i default).minDistR then
        { strips.getD i default with
            minDistR := distR strips i j, neighborR := some j }
      else strips.getD i default := by
  simp only [NeighborDistanceRight, distR]
  split
  · exact getD_set_self _ _ _ hi
  · rfl

theorem ndl_getD_self (strips : List Strip) (i j : Nat)
    (hi : i < strips.length) :
    (NeighborDistanceLeft strips i j).getD i default =
      if distL strips i j < (strips.getD i default).minDistL then
        { strips.getD i default with
            minDistL := distL strips i j, neighborL := some j }
      else strips.getD i default := by
  simp only [NeighborDistanceLeft, distL]
  split
  · exact getD_set_self _ _ _ hi
  · rfl

theorem step_getD_self (strips : List Strip) (i j : Nat)
    (hi : i < strips.length) (hij : i ≠ j) :
    (FindNeighborsStep strips i j).getD i default =
      stripStep (distR strips i j) (distL strips i j) j
        (strips.getD i default) := by
  simp only [FindNeighborsStep, if_neg hij]
  have hi' : i < (NeighborDistanceRight strips i j).length := by
    rw [ndr_length]; exact hi
  rw [ndl_getD_self _ _ _ hi']
  have hj : (NeighborDistanceRight strips i j).getD j default =
      strips.getD j default := ndr_getD_ne _ _ _ _ (Ne.symm hij)
  have hii := ndr_getD_self strips i j hi
  have hdl : distL (NeighborDistanceRight strips i j) i j =
      distL strips i j := by
    unfold distL
    rw [hj, hii]
    split <;> rfl
  rw [hdl, hii]
  by_cases hR : distR strips i j < (strips.getD i default).minDistR <;>
    by_cases hL : distL strips i j < (strips.getD i default).minDistL <;>
      simp only [stripStep, hR, hL, if_true, if_false, ite_true, ite_false,
        eq_self_iff_true, not_false_iff, not_true]

/-- `getD` past the end of the list. -/
theorem getD_of_le (l : List Strip) (k : Nat) (h : l.length ≤ k) :
    l.getD k default = default := by
  simp [List.getD, List.getElem?_eq_none h]

theorem sameFrame_refl (s : List Strip) : sameFrame s s :=
  ⟨rfl, fun _ => ⟨rfl, rfl, rfl, rfl⟩⟩

theorem sameFrame_trans {a b c : List Strip}
    (h1 : sameFrame a b) (h2 : sameFrame b c) : sameFrame a c := by
  refine ⟨h1.1.trans h2.1, fun k => ?_⟩
  obtain ⟨p1, q1, r1, s1⟩ := h1.2 k
  obtain ⟨p2, q2, r2, s2⟩ := h2.2 k
  exact ⟨p1.trans p2, q1.trans q2, r1.trans r2, s1.trans s2⟩

theorem sameFrame_distR {t s : List Strip} (h : sameFrame t s) (i j : Nat) :
    distR t i j = distR s i j := by
  unfold distR
  rw [(h.2 j).2.2.1, (h.2 i).2.2.2]

theorem sameFrame_distL {t s : List Strip} (h : sameFrame t s) (i j : Nat) :
    distL t i j = distL s i j := by
  unfold distL
  rw [(h.2 j).2.2.2, (h.2 i).2.2.1]

theorem step_frame (strips : List Strip) (i j : Nat) :
    sameFrame (FindNeighborsStep strips i j) strips := by
  refine ⟨step_length strips i j, fun k => ?_⟩
  by_cases hk : k = i
  · subst hk
    by_cases hlen : k < strips.length
    · by_cases hij : k = j
      · have h0 : FindNeighborsStep strips k j = strips := by
          simp only [FindNeighborsStep, if_pos hij]
        rw [h0]
        exact ⟨rfl, rfl, rfl, rfl⟩
      · rw [step_getD_self strips k j hlen hij]
        exact ⟨stripStep_position .., stripStep_imageData ..,
          stripStep_borderL .., stripStep_borderR ..⟩
    · have h1 : (FindNeighborsStep strips k j).getD k default = default := by
        apply getD_of_le
        rw [step_length]
        omega
      have h2 : strips.getD k default = default := by
        apply getD_of_le
        omega
      rw [h1, h2]
      exact ⟨rfl, rfl, rfl, rfl⟩
  · rw [step_getD_ne strips _ _ _ hk]
    exact ⟨rfl, rfl, rfl, rfl⟩

theorem innerFold_frame (i : Nat) :
    ∀ (js : List Nat) (acc : List Strip),
      sameFrame (js.foldl (fun acc2 j => FindNeighborsStep acc2 i j) acc)
        acc := by
  intro js
  induction js with
  | nil => intro acc; exact sameFrame_refl acc
  | cons j js ih =>
      intro acc
      rw [List.foldl_cons]
      exact sameFrame_trans (ih (FindNeighborsStep acc i j))
        (step_frame acc i j)

theorem innerFold_getD_ne (i k : Nat) (hk : k ≠ i) :
    ∀ (js : List Nat) (acc : List Strip),
      (js.foldl (fun acc2 j => FindNeighborsStep acc2 i j) acc).getD k
          default =
        acc.getD k default := by
  intro js
  induction js with
  | nil => intro acc; rfl
  | cons j js ih =>
      intro acc
      rw [List.foldl_cons, ih (FindNeighborsStep acc i j),
        step_getD_ne _ _ _ _ hk]

/-- Characterization of one outer-loop iteration: the effect of the
whole inner loop on the outer strip `i` is the abstract
`updateMin` fold on each side, with the candidate scores taken from
the original (static) borders. -/
theorem innerFold_getD_fields (strips : List Strip) (i : Nat)
    (hi : i < strips.length) :
    ∀ (js : List Nat) (t : List Strip), sameFrame t strips →
      ((js.foldl (fun acc2 j => FindNeighborsStep acc2 i j) t).getD i
            default).minDistR =
          (js.foldl (updateMin (distR strips i) i)
            ((t.getD i default).minDistR, (t.getD i default).neighborR)).1 ∧
      ((js.foldl (fun acc2 j => FindNeighborsStep acc2 i j) t).getD i
            default).neighborR =
          (js.foldl (updateMin (distR strips i) i)
            ((t.getD i default).minDistR, (t.getD i default).neighborR)).2 ∧
      ((js.foldl (fun acc2 j => FindNeighborsStep acc2 i j) t).getD i
            default).minDistL =
          (js.foldl (updateMin (distL strips i) i)
            ((t.getD i default).minDistL, (t.getD i default).neighborL)).1 ∧
      ((js.foldl (fun acc2 j => FindNeighborsStep acc2 i j) t).getD i
            default).neighborL =
          (js.foldl (updateMin (distL strips i) i)
            ((t.getD i default).minDistL, (t.getD i default).neighborL)).2 := by
  intro js
  induction js with
  | nil => intro t _; exact ⟨rfl, rfl, rfl, rfl⟩
  | cons j js ih =>
      intro t ht
      have hlen : i < t.length := by rw [ht.1]; exact hi
      simp only [List.foldl_cons]
      by_cases hij : i = j
      · have h1 : FindNeighborsStep t i j = t := by
          simp only [FindNeighborsStep, if_pos hij]
        have h2R : updateMin (distR strips i) i
            ((t.getD i default).minDistR, (t.getD i default).neighborR) j =
            ((t.getD i default).minDistR, (t.getD i default).neighborR) := by
          simp only [updateMin, if_pos hij]
        have h2L : updateMin (distL strips i) i
            ((t.getD i default).minDistL, (t.getD i default).neighborL) j =
            ((t.getD i default).minDistL, (t.getD i default).neighborL) := by
          simp only [updateMin, if_pos hij]
        rw [h1, h2R, h2L]
        exact ih t ht
      · have hstep := step_getD_self t i j hlen hij
        have hfr : sameFrame (FindNeighborsStep t i j) strips :=
          sameFrame_trans (step_frame t i j) ht
        obtain ⟨e1, e2, e3, e4⟩ := ih (FindNeighborsStep t i j) hfr
        have hR : (((FindNeighborsStep t i j).getD i default).minDistR,
              ((FindNeighborsStep t i j).getD i default).neighborR) =
            updateMin (distR strips i) i
              ((t.getD i default).minDistR, (t.getD i default).neighborR)
              j := by
          rw [hstep, sameFrame_distR ht, stripStep_minDistR,
            stripStep_neighborR]
          simp only [updateMin, if_neg hij]
          split <;> rfl
        have hL : (((FindNeighborsStep t i j).getD i default).minDistL,
              ((FindNeighborsStep t i j).getD i default).neighborL) =
            updateMin (distL strips i) i
              ((t.getD i default).minDistL, (t.getD i default).neighborL)
              j := by
          rw [hstep, sameFrame_distL ht, stripStep_minDistL,
            stripStep_neighborL]
          simp only [updateMin, if_neg hij]
          split <;> rfl
        refine ⟨?_, ?_, ?_, ?_⟩
        · rw [e1, ← hR]
        · rw [e2, ← hR]
        · rw [e3, ← hL]
        · rw [e4, ← hL]

/-- Characterization of the whole matching pass, prefix by prefix: the
first `m` outer iterations finalize strips `0, …, m-1` and leave the
rest untouched. -/
theorem outerAux (strips : List Strip) :
    ∀ m, m ≤ strips.length →
      sameFrame
        ((List.range m).foldl
          (fun acc i =>
            (List.range strips.length).foldl
              (fun acc2 j => FindNeighborsStep acc2 i j) acc)
          strips) strips ∧
      (∀ k, m ≤ k →
        ((List.range m).foldl
          (fun acc i =>
            (List.range strips.length).foldl
              (fun acc2 j => FindNeighborsStep acc2 i j) acc)
          strips).getD k default = strips.getD k default) ∧
      (∀ k, k < m →
        (((List.range m).foldl
          (fun acc i =>
            (List.range strips.length).foldl
              (fun acc2 j => FindNeighborsStep acc2 i j) acc)
          strips).getD k default).minDistR = (scanSideR strips k).1 ∧
        (((List.range m).foldl
          (fun acc i =>
            (List.range strips.length).foldl
              (fun acc2 j => FindNeighborsStep acc2 i j) acc)
          strips).getD k default).neighborR = (scanSideR strips k).2 ∧
        (((List.range m).foldl
          (fun acc i =>
            (List.range strips.length).foldl
              (fun acc2 j => FindNeighborsStep acc2 i j) acc)
          strips).getD k default).minDistL = (scanSideL strips k).1 ∧
        (((List.range m).foldl
          (fun acc i =>
            (List.range strips.length).foldl
              (fun acc2 j => FindNeighborsStep acc2 i j) acc)
          strips).getD k default).neighborL = (scanSideL strips k).2) := by
  intro m
  induction m with
  | zero =>
      intro _
      exact ⟨sameFrame_refl strips, fun k _ => rfl, fun k hk => absurd hk (by omega)⟩
  | succ m ih =>
      intro hm1
      have hm : m ≤ strips.length := by omega
      obtain ⟨hfr, huntouched, hdone⟩ := ih hm
      rw [List.range_succ, List.foldl_append, List.foldl_cons, List.foldl_nil]
      set Fm := (List.range m).foldl
        (fun acc i =>
          (List.range strips.length).foldl
            (fun acc2 j => FindNeighborsStep acc2 i j) acc)
        strips with hFm
      refine ⟨?_, ?_, ?_⟩
      · exact sameFrame_trans (innerFold_frame m (List.range strips.length) Fm) hfr
      · intro k hk
        rw [innerFold_getD_ne m k (by omega)]
        exact huntouched k (by omega)
      · intro k hk
        by_cases hkm : k = m
        · subst hkm
          have hklen : k < strips.length := by omega
          obtain ⟨f1, f2, f3, f4⟩ :=
            innerFold_getD_fields strips k hklen (List.range strips.length)
              Fm hfr
          have hfk : Fm.getD k default = strips.getD k default :=
            huntouched k (by omega)
          rw [f1, f2, f3, f4, hfk]
          exact ⟨rfl, rfl, rfl, rfl⟩
        · have hk' : k < m := by omega
          rw [innerFold_getD_ne m k (by omega)]
          exact hdone k hk'

/-- The final state of strip `i` after `FindNeighbors`: each side's
`(min_distance, neighbor)` is the `updateMin` scan over all candidate
indices in order, with scores computed from the original borders. -/
theorem findNeighbors_fields (strips : List Strip) (i : Nat)
    (hi : i < strips.length) :
    ((FindNeighbors strips).getD i default).minDistR =
        (scanSideR strips i).1 ∧
    ((FindNeighbors strips).getD i default).neighborR =
        (scanSideR strips i).2 ∧
    ((FindNeighbors strips).getD i default).minDistL =
        (scanSideL strips i).1 ∧
    ((FindNeighbors strips).getD i default).neighborL =
        (scanSideL strips i).2 :=
  (outerAux strips strips.length (le_refl _)).2.2 i hi

/-- The `updateMin` scan over `range n` starting from the sentinel
state `(MAX, none)` computes the minimum of the candidate scores, and
the stored index is the first candidate attaining it. -/
theorem scan_spec (d : Nat → Int) (i : Nat) :
    ∀ n : Nat,
      ((List.range n).foldl (updateMin d i) (MAX, none)).1 ≤ MAX ∧
      (∀ j, j < n → j ≠ i →
        ((List.range n).foldl (updateMin d i) (MAX, none)).1 ≤ d j) ∧
      ((((List.range n).foldl (updateMin d i) (MAX, none)).1 = MAX ∧
          ((List.range n).foldl (updateMin d i) (MAX, none)).2 = none) ∨
        (∃ k, ((List.range n).foldl (updateMin d i) (MAX, none)).2 = some k ∧
          k < n ∧ k ≠ i ∧
          d k = ((List.range n).foldl (updateMin d i) (MAX, none)).1 ∧
          ((List.range n).foldl (updateMin d i) (MAX, none)).1 < MAX ∧
          ∀ j, j < k → j ≠ i →
            ((List.range n).foldl (updateMin d i) (MAX, none)).1 < d j)) := by
  intro n
  induction n with
  | zero => exact ⟨le_refl _, fun j hj _ => absurd hj (by omega), Or.inl ⟨rfl, rfl⟩⟩
  | succ n ih =>
      obtain ⟨hle, hbound, hdisj⟩ := ih
      rw [List.range_succ, List.foldl_append, List.foldl_cons, List.foldl_nil]
      by_cases hin : i = n
      · rw [show updateMin d i ((List.range n).foldl (updateMin d i) (MAX, none)) n
            = (List.range n).foldl (updateMin d i) (MAX, none) from by
          simp only [updateMin, if_pos hin]]
        refine ⟨hle, fun j hj hji => hbound j (by omega) hji, ?_⟩
        rcases hdisj with h | ⟨k, hk⟩
        · exact Or.inl h
        · exact Or.inr ⟨k, hk.1, by omega, hk.2.2.1, hk.2.2.2.1, hk.2.2.2.2⟩
      · by_cases hlt : d n < ((List.range n).foldl (updateMin d i) (MAX, none)).1
        · rw [show updateMin d i ((List.range n).foldl (updateMin d i) (MAX, none)) n
              = (d n, some n) from by
            simp only [updateMin, if_neg hin, if_pos hlt]]
          refine ⟨by omega, ?_, ?_⟩
          · intro j hj hji
            by_cases hjn : j = n
            · subst hjn; exact le_refl _
            · have := hbound j (by omega) hji
              omega
          · refine Or.inr ⟨n, rfl, by omega, Ne.symm hin, rfl, ?_, ?_⟩
            · omega
            · intro j hj hji
              have := hbound j hj hji
              omega
        · rw [show updateMin d i ((List.range n).foldl (updateMin d i) (MAX, none)) n
              = (List.range n).foldl (updateMin d i) (MAX, none) from by
            simp only [updateMin, if_neg hin, if_neg hlt]]
          refine ⟨hle, ?_, ?_⟩
          · intro j hj hji
            by_cases hjn : j = n
            · subst hjn; omega
            · exact hbound j (by omega) hji
          · rcases hdisj with h | ⟨k, hk⟩
            · exact Or.inl h
            · exact Or.inr ⟨k, hk.1, by omega, hk.2.2.1, hk.2.2.2.1, hk.2.2.2.2⟩

/-- Claim C2: after the matching pass, for each strip and each side,
the retained best neighbor and best distance are those of the minimum
candidate score, and on ties the first minimum encountered (in
candidate order) is kept: every candidate strictly before the stored
one scores strictly worse. -/
theorem claim_C2 (strips : List Strip) (i : Nat) (hi : i < strips.length)
    (hfreshR : (strips.getD i default).minDistR = MAX ∧
      (strips.getD i default).neighborR = none)
    (hfreshL : (strips.getD i default).minDistL = MAX ∧
      (strips.getD i default).neighborL = none)
    (hExR : ∃ j, j < strips.length ∧ j ≠ i ∧ distR strips i j < MAX)
    (hExL : ∃ j, j < strips.length ∧ j ≠ i ∧ distL strips i j < MAX) :
    (∃ k, ((FindNeighbors strips).getD i default).neighborR = some k ∧
      k < strips.length ∧ k ≠ i ∧
      distR strips i k = ((FindNeighbors strips).getD i default).minDistR ∧
      (∀ j, j < strips.length → j ≠ i →
        ((FindNeighbors strips).getD i default).minDistR ≤
          distR strips i j) ∧
      (∀ j, j < k → j ≠ i →
        ((FindNeighbors strips).getD i default).minDistR <
          distR strips i j)) ∧
    (∃ k, ((FindNeighbors strips).getD i default).neighborL = some k ∧
      k < strips.length ∧ k ≠ i ∧
      distL strips i k = ((FindNeighbors strips).getD i default).minDistL ∧
      (∀ j, j < strips.length → j ≠ i →
        ((FindNeighbors strips).getD i default).minDistL ≤
          distL strips i j) ∧
      (∀ j, j < k → j ≠ i →
        ((FindNeighbors strips).getD i default).minDistL <
          distL strips i j)) := by
  obtain ⟨f1, f2, f3, f4⟩ := findNeighbors_fields strips i hi
  have hscanR : scanSideR strips i =
      (List.range strips.length).foldl (updateMin (distR strips i) i)
        (MAX, none) := by
    unfold scanSideR
    rw [hfreshR.1, hfreshR.2]
  have hscanL : scanSideL strips i =
      (List.range strips.length).foldl (updateMin (distL strips i) i)
        (MAX, none) := by
    unfold scanSideL
    rw [hfreshL.1, hfreshL.2]
  rw [hscanR] at f1 f2
  rw [hscanL] at f3 f4
  constructor
  · obtain ⟨hle, hbound, hdisj⟩ := scan_spec (distR strips i) i strips.length
    rcases hdisj with ⟨hmax, -⟩ | ⟨k, hk1, hk2, hk3, hk4, hk5, hk6⟩
    · exfalso
      obtain ⟨j, hj1, hj2, hj3⟩ := hExR
      have hb := hbound j hj1 hj2
      rw [hmax] at hb
      exact absurd (lt_of_le_of_lt hb hj3) (lt_irrefl _)
    · refine ⟨k, ?_, hk2, hk3, ?_, ?_, ?_⟩
      · rw [f2, hk1]
      · rw [f1]; exact hk4
      · intro j hj hji; rw [f1]; exact hbound j hj hji
      · intro j hj hji; rw [f1]; exact hk6 j hj hji
  · obtain ⟨hle, hbound, hdisj⟩ := scan_spec (distL strips i) i strips.length
    rcases hdisj with ⟨hmax, -⟩ | ⟨k, hk1, hk2, hk3, hk4, hk5, hk6⟩
    · exfalso
      obtain ⟨j, hj1, hj2, hj3⟩ := hExL
      have hb := hbound j hj1 hj2
      rw [hmax] at hb
      exact absurd (lt_of_le_of_lt hb hj3) (lt_irrefl _)
    · refine ⟨k, ?_, hk2, hk3, ?_, ?_, ?_⟩
      · rw [f4, hk1]
      · rw [f3]; exact hk4
      · intro j hj hji; rw [f3]; exact hbound j hj hji
      · intro j hj hji; rw [f3]; exact hk6 j hj hji

/-- Witness for C2 at a concrete two-strip input. -/
theorem claim_C2_witness :
    (0 < [stripA, stripB].length) ∧
    ([stripA, stripB].getD 0 default).minDistR = MAX ∧
    (∃ j, j < [stripA, stripB].length ∧ j ≠ 0 ∧
      distR [stripA, stripB] 0 j < MAX) ∧
    ((∃ k, ((FindNeighbors [stripA, stripB]).getD 0 default).neighborR = some k ∧
      k < [stripA, stripB].length ∧ k ≠ 0 ∧
      distR [stripA, stripB] 0 k =
        ((FindNeighbors [stripA, stripB]).getD 0 default).minDistR ∧
      (∀ j, j < [stripA, stripB].length → j ≠ 0 →
        ((FindNeighbors [stripA, stripB]).getD 0 default).minDistR ≤
          distR [stripA, stripB] 0 j) ∧
      (∀ j, j < k → j ≠ 0 →
        ((FindNeighbors [stripA, stripB]).getD 0 default).minDistR <
          distR [stripA, stripB] 0 j)) ∧
    (∃ k, ((FindNeighbors [stripA, stripB]).getD 0 default).neighborL = some k ∧
      k < [stripA, stripB].length ∧ k ≠ 0 ∧
      distL [stripA, stripB] 0 k =
        ((FindNeighbors [stripA, stripB]).getD 0 default).minDistL ∧
      (∀ j, j < [stripA, stripB].length → j ≠ 0 →
        ((FindNeighbors [stripA, stripB]).getD 0 default).minDistL ≤
          distL [stripA, stripB] 0 j) ∧
      (∀ j, j < k → j ≠ 0 →
        ((FindNeighbors [stripA, stripB]).getD 0 default).minDistL <
          distL [stripA, stripB] 0 j))) :=
  ⟨by decide, by decide, ⟨1, by decide, by decide, by decide⟩,
    claim_C2 [stripA, stripB] 0 (by decide) ⟨by decide, by decide⟩
      ⟨by decide, by decide⟩
      ⟨1, by decide, by decide, by decide⟩
      ⟨1, by decide, by decide, by decide⟩⟩

/-- A fold preserves any invariant its step function preserves. -/
theorem foldl_preserve {α β : Type} (P : β → Prop) (f : β → α → β)
    (hstep : ∀ b a, P b → P (f b a)) :
    ∀ (l : List α) (b : β), P b → P (l.foldl f b) := by
  intro l
  induction l with
  | nil => intro b hb; exact hb
  | cons x xs ih => intro b hb; exact ih _ (hstep b x hb)

/-- A single comparison step preserves `NoSelfNeighbor`: the step only
installs candidate `j` into strip `i` when `i ≠ j`. -/
theorem step_noSelf (strips : List Strip) (i j : Nat)
    (h : NoSelfNeighbor strips) :
    NoSelfNeighbor (FindNeighborsStep strips i j) := by
  intro k hk
  rw [step_length] at hk
  by_cases hki : k = i
  · subst hki
    by_cases hij : k = j
    · have h0 : FindNeighborsStep strips k j = strips := by
        simp only [FindNeighborsStep, if_pos hij]
      rw [h0]
      exact h k hk
    · rw [step_getD_self strips k j hk hij]
      constructor
      · rw [stripStep_neighborL]
        split
        · simp only [ne_eq, Option.some.injEq]
          exact fun hc => hij hc.symm
        · exact (h k hk).1
      · rw [stripStep_neighborR]
        split
        · simp only [ne_eq, Option.some.injEq]
          exact fun hc => hij hc.symm
        · exact (h k hk).2
  · rw [step_getD_ne strips i j k hki]
    exact h k hk

/-- Claim C6: at every point during and after the matching pass, no
strip's stored best neighbor is the strip itself: every single
comparison step preserves the invariant, and so does the whole pass. -/
theorem claim_C6 (strips : List Strip) (h : NoSelfNeighbor strips) :
    (∀ i j, NoSelfNeighbor (FindNeighborsStep strips i j)) ∧
    NoSelfNeighbor (FindNeighbors strips) := by
  constructor
  · intro i j
    exact step_noSelf strips i j h
  · unfold FindNeighbors
    exact foldl_preserve NoSelfNeighbor _
      (fun acc i hacc =>
        foldl_preserve NoSelfNeighbor _
          (fun acc2 j h2 => step_noSelf acc2 i j h2)
          (List.range strips.length) acc hacc)
      (List.range strips.length) strips h

/-- Witness for C6 at a concrete two-strip input. -/
theorem claim_C6_witness :
    NoSelfNeighbor [stripA, stripB] ∧
    ((∀ i j, NoSelfNeighbor (FindNeighborsStep [stripA, stripB] i j)) ∧
      NoSelfNeighbor (FindNeighbors [stripA, stripB])) :=
  have h : NoSelfNeighbor [stripA, stripB] := by
    unfold NoSelfNeighbor
    decide
  ⟨h, claim_C6 [stripA, stripB] h⟩

/-- An in-range `getD` is a member of the list. -/
theorem getD_mem_of_lt {α : Type} (l : List α) (d : α) (i : Nat)
    (h : i < l.length) : l.getD i d ∈ l := by
  rw [List.getD_eq_getElem l d h]
  exact List.getElem_mem h

/-- A sum of `n` mapped values each at most 255 is at most `255 * n`. -/
theorem sum_map_le_255 :
    ∀ (n : Nat) (f : Nat → Int), (∀ i, i < n → f i ≤ 255) →
      ((List.range n).map f).sum ≤ 255 * n := by
  intro n
  induction n with
  | zero => intro f _; simp
  | succ n ih =>
      intro f hf
      rw [List.range_succ, List.map_append, List.sum_append]
      simp only [List.map_cons, List.map_nil, List.sum_cons, List.sum_nil]
      have h1 := ih f (fun i hi => hf i (by omega))
      have h2 := hf n (by omega)
      push_cast
      push_cast at h1
      omega

/-- The distance of two equal-length borders of 4-channel pixels with
channels in `[0, 255]` is at most `255` per sample. -/
theorem getDistance_le (a b : List Pixel) (hlen : a.length = b.length)
    (ha : ∀ p ∈ a, p.length = 4 ∧ ∀ c ∈ p, 0 ≤ c ∧ c ≤ 255)
    (hb : ∀ p ∈ b, p.length = 4 ∧ ∀ c ∈ p, 0 ≤ c ∧ c ≤ 255) :
    GetDistance a b ≤ 255 * a.length := by
  rw [getDistance_eq_sum]
  apply sum_map_le_255
  intro i hi
  have hai : a.getD i [] ∈ a := getD_mem_of_lt a [] i hi
  have hbi : b.getD i [] ∈ b := getD_mem_of_lt b [] i (by omega)
  obtain ⟨hal, hac⟩ := ha _ hai
  obtain ⟨hbl, hbc⟩ := hb _ hbi
  rw [pixelDist_four _ _ hal]
  have ha0 : (a.getD i []).getD 0 0 ∈ a.getD i [] :=
    getD_mem_of_lt _ 0 0 (by omega)
  have hb0 : (b.getD i []).getD 0 0 ∈ b.getD i [] :=
    getD_mem_of_lt _ 0 0 (by omega)
  have hca := hac _ ha0
  have hcb := hbc _ hb0
  rw [abs_le]
  omega

/-- Claim C10: after the matching pass over at least two strips whose
border samples are equal-length sequences of 4-channel pixels with
channel values in `[0, 255]` (and `255·L` below the sentinel `MAX`),
every strip's best neighbor on both sides is assigned: the first
candidate comparison on each side always installs a neighbor. -/
theorem claim_C10 (strips : List Strip) (L : Nat)
    (hn : 2 ≤ strips.length)
    (hL : 255 * (L : Int) < MAX)
    (hok : ∀ k, k < strips.length →
      BorderOK L (strips.getD k default).borderL ∧
      BorderOK L (strips.getD k default).borderR)
    (hfresh : ∀ k, k < strips.length →
      (strips.getD k default).minDistR = MAX ∧
      (strips.getD k default).neighborR = none ∧
      (strips.getD k default).minDistL = MAX ∧
      (strips.getD k default).neighborL = none) :
    ∀ i, i < strips.length →
      ((FindNeighbors strips).getD i default).neighborR.isSome = true ∧
      ((FindNeighbors strips).getD i default).neighborL.isSome = true := by
  intro i hi
  obtain ⟨f1, f2, f3, f4⟩ := findNeighbors_fields strips i hi
  obtain ⟨hfr1, hfr2, hfr3, hfr4⟩ := hfresh i hi
  have hj0lt : (if i = 0 then 1 else 0) < strips.length := by
    split <;> omega
  have hj0ne : (if i = 0 then 1 else 0) ≠ i := by
    split
    · omega
    · rename_i hne
      exact fun hc => hne hc.symm
  have hdRlt : distR strips i (if i = 0 then 1 else 0) < MAX := by
    have hbl := (hok _ hj0lt).1
    have hbr := (hok i hi).2
    have h1 := getDistance_le (strips.getD (if i = 0 then 1 else 0)
        default).borderL (strips.getD i default).borderR
      (by rw [hbl.1, hbr.1]) hbl.2 hbr.2
    rw [hbl.1] at h1
    exact lt_of_le_of_lt h1 hL
  have hdLlt : distL strips i (if i = 0 then 1 else 0) < MAX := by
    have hbr := (hok _ hj0lt).2
    have hbl := (hok i hi).1
    have h1 := getDistance_le (strips.getD (if i = 0 then 1 else 0)
        default).borderR (strips.getD i default).borderL
      (by rw [hbr.1, hbl.1]) hbr.2 hbl.2
    rw [hbr.1] at h1
    exact lt_of_le_of_lt h1 hL
  have hscanR : scanSideR strips i =
      (List.range strips.length).foldl (updateMin (distR strips i) i)
        (MAX, none) := by
    unfold scanSideR
    rw [hfr1, hfr2]
  have hscanL : scanSideL strips i =
      (List.range strips.length).foldl (updateMin (distL strips i) i)
        (MAX, none) := by
    unfold scanSideL
    rw [hfr3, hfr4]
  constructor
  · rw [f2, hscanR]
    obtain ⟨hle, hbound, hdisj⟩ := scan_spec (distR strips i) i strips.length
    rcases hdisj with ⟨hmax, -⟩ | ⟨k, hk1, -⟩
    · exfalso
      have hb := hbound _ hj0lt hj0ne
      rw [hmax] at hb
      exact absurd (lt_of_le_of_lt hb hdRlt) (lt_irrefl _)
    · rw [hk1]
      rfl
  · rw [f4, hscanL]
    obtain ⟨hle, hbound, hdisj⟩ := scan_spec (distL strips i) i strips.length
    rcases hdisj with ⟨hmax, -⟩ | ⟨k, hk1, -⟩
    · exfalso
      have hb := hbound _ hj0lt hj0ne
      rw [hmax] at hb
      exact absurd (lt_of_le_of_lt hb hdLlt) (lt_irrefl _)
    · rw [hk1]
      rfl

/-- Witness for C10 at a concrete two-strip input. -/
theorem claim_C10_witness :
    (2 ≤ [stripA, stripB].length) ∧
    (255 * ((1 : Nat) : Int) < MAX) ∧
    (∀ i, i < [stripA, stripB].length →
      ((FindNeighbors [stripA, stripB]).getD i default).neighborR.isSome
          = true ∧
      ((FindNeighbors [stripA, stripB]).getD i default).neighborL.isSome
          = true) :=
  ⟨by decide, by decide,
    claim_C10 [stripA, stripB] 1 (by decide) (by decide)
      (by
        intro k hk
        have hk2 : k < 2 := hk
        unfold BorderOK
        interval_cases k <;>
          exact ⟨⟨by decide, by decide⟩, ⟨by decide, by decide⟩⟩)
      (by
        intro k hk
        have hk2 : k < 2 := hk
        interval_cases k <;>
          exact ⟨by decide, by decide, by decide, by decide⟩)⟩

/-- If no strip at index `≥ i` is an offender, the scan starting at
`i` falls off the loop and returns `None`. -/
theorem detectGo_none (strips : List Strip)
    (hsome : ∀ k, k < strips.length →
      (strips.getD k default).neighborR.isSome = true ∧
      (strips.getD k default).neighborL.isSome = true) :
    ∀ (rest : List Strip) (i : Nat), strips.drop i = rest →
      (∀ j, i ≤ j → j < strips.length → ¬ Offender strips j) →
      DetectLeftEdgeGo strips rest i = .ok none := by
  intro rest
  induction rest with
  | nil => intro i _ _; rfl
  | cons s rest ih =>
      intro i hdrop hno
      have hi : i < strips.length := by
        by_contra hcon
        rw [List.drop_eq_nil_of_le (by omega)] at hdrop
        exact List.noConfusion hdrop
      have hcons := List.drop_eq_getElem_cons hi
      rw [hdrop] at hcons
      have hs : s = strips.getD i default := by
        rw [List.getD_eq_getElem strips default hi]
        exact ((List.cons.injEq ..).mp hcons.symm).1.symm
      have hrest : strips.drop (i + 1) = rest :=
        ((List.cons.injEq ..).mp hcons.symm).2
      obtain ⟨hR, hL⟩ := hsome i hi
      obtain ⟨r, hr⟩ := Option.isSome_iff_exists.mp hR
      obtain ⟨l, hl⟩ := Option.isSome_iff_exists.mp hL
      have hnotoff := hno i (le_refl i) hi
      unfold Offender at hnotoff
      rw [hl] at hnotoff
      simp only [Option.getD_some, ne_eq, not_not] at hnotoff
      simp only [DetectLeftEdgeGo, hs, hr, hl, hnotoff, if_pos]
      exact ih (i + 1) hrest (fun j hj hjl => hno j (by omega) hjl)

/-- If `k ≥ i` is the first offender at or after `i`, the scan
starting at `i` returns strip `k`. -/
theorem detectGo_found (strips : List Strip)
    (hsome : ∀ k, k < strips.length →
      (strips.getD k default).neighborR.isSome = true ∧
      (strips.getD k default).neighborL.isSome = true) :
    ∀ (rest : List Strip) (i : Nat), strips.drop i = rest →
      ∀ k, i ≤ k → k < strips.length → Offender strips k →
        (∀ j, i ≤ j → j < k → ¬ Offender strips j) →
        DetectLeftEdgeGo strips rest i = .ok (some k) := by
  intro rest
  induction rest with
  | nil =>
      intro i hdrop k hik hk _ _
      exfalso
      have := List.drop_eq_nil_iff.mp hdrop
      omega
  | cons s rest ih =>
      intro i hdrop k hik hk hoff hfirst
      have hi : i < strips.length := by omega
      have hcons := List.drop_eq_getElem_cons hi
      rw [hdrop] at hcons
      have hs : s = strips.getD i default := by
        rw [List.getD_eq_getElem strips default hi]
        exact ((List.cons.injEq ..).mp hcons.symm).1.symm
      have hrest : strips.drop (i + 1) = rest :=
        ((List.cons.injEq ..).mp hcons.symm).2
      obtain ⟨hR, hL⟩ := hsome i hi
      obtain ⟨r, hr⟩ := Option.isSome_iff_exists.mp hR
      obtain ⟨l, hl⟩ := Option.isSome_iff_exists.mp hL
      by_cases hik' : i = k
      · subst hik'
        unfold Offender at hoff
        rw [hl] at hoff
        simp only [Option.getD_some, ne_eq] at hoff
        simp only [DetectLeftEdgeGo, hs, hr, hl, if_neg hoff]
      · have hnotoff := hfirst i (le_refl i) (by omega)
        unfold Offender at hnotoff
        rw [hl] at hnotoff
        simp only [Option.getD_some, ne_eq, not_not] at hnotoff
        simp only [DetectLeftEdgeGo, hs, hr, hl, hnotoff, if_pos]
        exact ih (i + 1) hrest k (by omega) hk hoff
          (fun j hj hjk => hfirst j (by omega) hjk)

/-- Claim C3 (amended): given a fully matched strip set (both
neighbors assigned everywhere), the edge detector returns the first
broken-reciprocity strip in extraction order when at least one
exists; when zero strips satisfy the condition it returns no strip at
all (Python `None`), not an offender. -/
theorem claim_C3_amended (strips : List Strip)
    (hsome : ∀ k, k < strips.length →
      (strips.getD k default).neighborR.isSome = true ∧
      (strips.getD k default).neighborL.isSome = true) :
    ((∀ j, j < strips.length → ¬ Offender strips j) →
      DetectLeftEdge strips = .ok none) ∧
    (∀ i, i < strips.length → Offender strips i →
      (∀ j, j < i → ¬ Offender strips j) →
      DetectLeftEdge strips = .ok (some i)) := by
  constructor
  · intro hno
    exact detectGo_none strips hsome strips 0 rfl
      (fun j _ hj => hno j hj)
  · intro i hi hoff hfirst
    exact detectGo_found strips hsome strips 0 rfl i (by omega) hi hoff
      (fun j _ hj => hfirst j hj)

/-- Counterexample for C3 as stated: a concrete matched two-strip set
(the output of the matching pass on two distinct strips) in which the
two strips are mutual best neighbors, so zero strips satisfy the
broken-reciprocity condition, and the detector returns no strip at
all rather than "the first offender". -/
theorem claim_C3_counterexample :
    (∀ j, j < (FindNeighbors [stripA, stripB]).length →
      ¬ Offender (FindNeighbors [stripA, stripB]) j) ∧
    DetectLeftEdge (FindNeighbors [stripA, stripB]) = Except.ok none := by
  constructor
  · intro j hj
    have hj2 : j < 2 := hj
    unfold Offender
    interval_cases j <;> decide
  · rfl

/-- Witness for the amended C3 at a concrete matched two-strip set:
both neighbors are assigned everywhere, and with zero offenders the
detector returns no strip. -/
theorem claim_C3_witness :
    (∀ k, k < (FindNeighbors [stripA, stripB]).length →
      ((FindNeighbors [stripA, stripB]).getD k default).neighborR.isSome
          = true ∧
      ((FindNeighbors [stripA, stripB]).getD k default).neighborL.isSome
          = true) ∧
    ((∀ j, j < (FindNeighbors [stripA, stripB]).length →
      ¬ Offender (FindNeighbors [stripA, stripB]) j) →
      DetectLeftEdge (FindNeighbors [stripA, stripB]) = .ok none) :=
  ⟨by
    intro k hk
    have hk2 : k < 2 := hk
    interval_cases k <;> exact ⟨by decide, by decide⟩,
    (claim_C3_amended (FindNeighbors [stripA, stripB])
      (by
        intro k hk
        have hk2 : k < 2 := hk
        interval_cases k <;> exact ⟨by decide, by decide⟩)).1⟩

theorem follow_zero (strips : List Strip) (io : Option Nat) :
    follow strips io 0 = io := by
  cases io <;> rfl

theorem follow_succ (strips : List Strip) (i k : Nat) :
    follow strips (some i) (k + 1) =
      follow strips (strips.getD i default).neighborR k := rfl

/-- Unrolling of the chain-assembly recursion: if the next
`m = 20 - count` hops are all defined, the recursion succeeds and the
output agrees with the visited strips on `[count·32, 640) × [0, 359)`
and with the incoming image elsewhere. -/
theorem orderGo (strips : List Strip) :
    ∀ (m count : Nat) (io : Option Nat) (image : Raster),
      count + m = IMAGE_WIDTH / STRIP_WIDTH →
      (∀ k, k < m → (follow strips io k).isSome = true) →
      ∃ out, OrderStrips strips image io count = .ok out ∧
        ∀ x y, out x y =
          if count * STRIP_WIDTH ≤ x ∧ x < IMAGE_WIDTH ∧ y < IMAGE_HEIGHT
          then
            GetPixelValue
              (strips.getD
                ((follow strips io
                  ((x - count * STRIP_WIDTH) / STRIP_WIDTH)).getD 0)
                default).imageData
              (x % STRIP_WIDTH) y
          else image x y := by
  intro m
  induction m with
  | zero =>
      intro count io image hcount _
      have hstop : count * STRIP_WIDTH ≥ IMAGE_WIDTH := by
        simp only [IMAGE_WIDTH, STRIP_WIDTH] at *
        omega
      refine ⟨image, ?_, ?_⟩
      · unfold OrderStrips
        rw [dif_pos hstop]
      · intro x y
        rw [if_neg]
        intro ⟨h1, h2, _⟩
        omega
  | succ m ih =>
      intro count io image hcount hchain
      have hgo : ¬ count * STRIP_WIDTH ≥ IMAGE_WIDTH := by
        simp only [IMAGE_WIDTH, STRIP_WIDTH] at *
        omega
      have h0 := hchain 0 (by omega)
      obtain ⟨i, hi⟩ := Option.isSome_iff_exists.mp h0
      rw [follow_zero] at hi
      subst hi
      obtain ⟨out, hout, hpix⟩ := ih (count + 1)
        (strips.getD i default).neighborR
        (pasteStrip image (strips.getD i default).imageData
          (count * STRIP_WIDTH))
        (by omega)
        (fun k hk => by
          rw [← follow_succ]
          exact hchain (k + 1) (by omega))
      refine ⟨out, ?_, ?_⟩
      · unfold OrderStrips
        rw [dif_neg hgo]
        exact hout
      · intro x y
        rw [hpix x y]
        have hsw : STRIP_WIDTH = 32 := rfl
        have hiw : IMAGE_WIDTH = 640 := rfl
        have hih : IMAGE_HEIGHT = 359 := rfl
        have hgo' : count * 32 < 640 := by
          rw [hsw, hiw] at hgo
          omega
        unfold pasteStrip
        simp only [hsw, hiw, hih]
        by_cases h1 : (count + 1) * 32 ≤ x ∧ x < 640 ∧ y < 359
        · have hc2 : count * 32 ≤ x ∧ x < 640 ∧ y < 359 :=
            ⟨by omega, h1.2⟩
          rw [if_pos h1, if_pos hc2]
          have harith : (x - count * 32) / 32 =
              (x - (count + 1) * 32) / 32 + 1 := by
            obtain ⟨g1, -⟩ := h1
            omega
          rw [harith, follow_succ]
        · rw [if_neg h1]
          by_cases h2 : count * 32 ≤ x ∧ x < 640 ∧ y < 359
          · rw [if_pos h2]
            obtain ⟨g1, g2, g3⟩ := h2
            have hn1 : ¬ ((count + 1) * 32 ≤ x) := fun hc => h1 ⟨hc, g2, g3⟩
            rw [if_pos (show count * 32 ≤ x ∧ x < count * 32 + 32 ∧ y < 359
              from ⟨g1, by omega, g3⟩)]
            have hdiv : (x - count * 32) / 32 = 0 := by omega
            have hmod : x % 32 = x - count * 32 := by omega
            rw [hdiv, hmod, follow_zero]
            simp only [Option.getD_some]
          · rw [if_neg h2, if_neg]
            intro ⟨g1, g2, g3⟩
            exact h2 ⟨g1, by omega, g3⟩

/-- Claim C4: chain assembly started at the detected edge strip with
slot count 0 follows right best-neighbor links, pastes the k-th
visited strip at pixel columns `[k·STRIP_WIDTH, (k+1)·STRIP_WIDTH)`,
and halts exactly when the slot offset reaches the image width, so
exactly `IMAGE_WIDTH / STRIP_WIDTH` strips are pasted. -/
theorem claim_C4 (strips : List Strip) (image : Raster) (i0 : Nat)
    (hchain : ∀ k, k < IMAGE_WIDTH / STRIP_WIDTH →
      (follow strips (some i0) k).isSome = true) :
    ∃ out, OrderStrips strips image (some i0) 0 = .ok out ∧
      ∀ x y, out x y =
        if x < IMAGE_WIDTH ∧ y < IMAGE_HEIGHT then
          GetPixelValue
            (strips.getD ((follow strips (some i0) (x / STRIP_WIDTH)).getD 0)
              default).imageData (x % STRIP_WIDTH) y
        else image x y := by
  obtain ⟨out, h1, h2⟩ :=
    orderGo strips (IMAGE_WIDTH / STRIP_WIDTH) 0 (some i0) image rfl hchain
  refine ⟨out, h1, ?_⟩
  intro x y
  rw [h2 x y]
  simp only [Nat.zero_mul, Nat.zero_le, true_and, Nat.sub_zero]

/-- Witness for C4 on a concrete 20-strip cyclic chain. -/
theorem claim_C4_witness :
    (∀ k, k < IMAGE_WIDTH / STRIP_WIDTH →
      (follow stripCycle (some 0) k).isSome = true) ∧
    (∃ out, OrderStrips stripCycle (fun _ _ => []) (some 0) 0 = .ok out ∧
      ∀ x y, out x y =
        if x < IMAGE_WIDTH ∧ y < IMAGE_HEIGHT then
          GetPixelValue
            (stripCycle.getD
              ((follow stripCycle (some 0) (x / STRIP_WIDTH)).getD 0)
              default).imageData (x % STRIP_WIDTH) y
        else (fun _ _ => ([] : Pixel)) x y) :=
  ⟨by decide, claim_C4 stripCycle (fun _ _ => []) 0 (by decide)⟩

/-- Unrolling of the sampling loop: starting at `sample_count = sc`,
exactly `180 - sc` further samples are taken, at rows
`sc·SAMPLING_DISTANCE, (sc+1)·SAMPLING_DISTANCE, …`. -/
theorem loadBorderGo_eq (data : List Pixel) (x : Nat) :
    ∀ (m sc : Nat), sc + m = 180 →
      LoadBorderGo data x sc =
        (List.range m).map
          (fun t => GetPixelValue data x ((sc + t) * SAMPLING_DISTANCE)) := by
  intro m
  induction m with
  | zero =>
      intro sc hsc
      unfold LoadBorderGo
      rw [dif_neg (by
        simp only [SAMPLING_DISTANCE, IMAGE_HEIGHT]
        omega)]
      simp
  | succ m ih =>
      intro sc hsc
      unfold LoadBorderGo
      rw [dif_pos (by
        simp only [SAMPLING_DISTANCE, IMAGE_HEIGHT]
        omega)]
      rw [ih (sc + 1) (by omega)]
      rw [List.range_succ_eq_map, List.map_cons, List.map_map]
      refine congrArg₂ List.cons ?_ ?_
      · rw [Nat.add_zero]
      · apply List.map_congr_left
        intro t _
        simp only [Function.comp_apply]
        congr 1
        simp only [SAMPLING_DISTANCE]
        omega

/-- Claim C5: border sampling for a strip reads the edge column (0 on
the left, `STRIP_WIDTH - 1` on the right) at rows `0,
SAMPLING_DISTANCE, 2·SAMPLING_DISTANCE, …`, and the sampled rows are
exactly those multiples below the strip's height: it never reads a row
at or beyond `IMAGE_HEIGHT`. -/
theorem claim_C5 (data : List Pixel) (pos : Nat) :
    (mkStrip data pos).borderL =
      (List.range 180).map
        (fun k => GetPixelValue data 0 (k * SAMPLING_DISTANCE)) ∧
    (mkStrip data pos).borderR =
      (List.range 180).map
        (fun k => GetPixelValue data (STRIP_WIDTH - 1)
          (k * SAMPLING_DISTANCE)) ∧
    (∀ k, k * SAMPLING_DISTANCE < IMAGE_HEIGHT ↔ k < 180) := by
  refine ⟨?_, ?_, ?_⟩
  · show LoadBorder data 0 = _
    unfold LoadBorder
    rw [loadBorderGo_eq data 0 180 0 rfl]
    simp only [Nat.zero_add]
  · show LoadBorder data (STRIP_WIDTH - 1) = _
    unfold LoadBorder
    rw [loadBorderGo_eq data (STRIP_WIDTH - 1) 180 0 rfl]
    simp only [Nat.zero_add]
  · intro k
    simp only [SAMPLING_DISTANCE, IMAGE_HEIGHT]
    omega

/-- Claim C7 (amended): on a single-strip input the matcher compares
no pairs, both neighbors stay `None`, and the edge detector crashes
dereferencing the absent neighbor, so the pipeline fails instead of
reproducing the input image. -/
theorem claim_C7_amended (s : Strip) (blank : Raster)
    (hL : s.neighborL = none) (hR : s.neighborR = none) :
    RunPipeline [s] blank = .error () := by
  have hfn : FindNeighbors [s] = [s] := rfl
  unfold RunPipeline
  rw [hfn]
  unfold DetectLeftEdge
  simp only [DetectLeftEdgeGo, hR, hL]

/-- Counterexample for C7 as stated: on a concrete single-strip input
the pipeline raises (dereferences an absent neighbor) rather than
returning the strip unchanged. -/
theorem claim_C7_counterexample :
    RunPipeline [stripSolo] (fun _ _ => []) = Except.error () := rfl

/-- Witness for the amended C7 at the concrete single strip. -/
theorem claim_C7_witness :
    stripSolo.neighborL = none ∧ stripSolo.neighborR = none ∧
    RunPipeline [stripSolo] (fun _ _ => []) = .error () :=
  ⟨rfl, rfl, claim_C7_amended stripSolo (fun _ _ => []) rfl rfl⟩

end Unshredder

